import Mathlib

/-
Verification of the natural-language specification of the Business
Intelligence Agent (src/app.py) against a shallow embedding of its core
function ask_agent (lines 104-168).  Datasets are pandas DataFrames,
modelled as tables of string cells; the generated Python programs run by
exec are modelled by a small statement language with reference semantics
(a heap of tables), mirroring how exec receives live references to the
two dataframes and resolves names through the locals dict and then the
builtins that CPython injects into an empty globals dict.
-/

namespace BIAgent

/-- A named table of records, modelling a pandas DataFrame as handed to
ask_agent: column names plus rows of cell values. -/
structure Table where
  cols : List String
  rows : List (List String)
  deriving DecidableEq

/-- Pandas df.empty: a dataframe is empty when either axis has length
zero (no rows, or no columns at all). -/
def Table.emptyTable (t : Table) : Bool := t.rows.isEmpty || t.cols.isEmpty

/-- Markdown rendering of one row of cells, pipe separated. -/
def rowMd (cells : List String) : String :=
  "| " ++ String.intercalate " | " cells ++ " |"

/-- Rendering df.to_markdown(index=False): a header line, a separator
line, then one line per record. -/
def renderTable (t : Table) : String :=
  String.intercalate "\n"
    (rowMd t.cols :: rowMd (t.cols.map fun _ => "---") :: t.rows.map rowMd)

/-- Lines 119-120 of src/app.py: df.head(3).to_markdown(index=False)
when the dataframe is nonempty, the placeholder string otherwise. -/
def sampleBlock (t : Table) : String :=
  if t.emptyTable then "No data"
  else renderTable { cols := t.cols, rows := t.rows.take 3 }

/-- Lines 122-138 of src/app.py: the prompt f-string sent to the
completion service, a pure function of the two sample blocks and the
verbatim query text. -/
def buildPrompt (deals orders : Table) (query : String) : String :=
  "\nI have two pandas DataFrames: `df_deals` and `df_orders`.\n\nSample df_deals:\n"
    ++ sampleBlock deals
    ++ "\n\nSample df_orders:\n"
    ++ sampleBlock orders
    ++ "\n\nUser Query: \"" ++ query
    ++ "\"\n\nTask: Write Python code to answer this question.\n- Use variable `result` for the final answer\n- Output ONLY the code inside ```python ``` blocks\n- Make the result clear and concise\n- If creating a table, convert to markdown or dict\n"

/-- Runtime values of the executed program: references into the heap of
tables (DataFrames are passed by reference), numbers, strings, the
Python None, the builtin function objects reachable through the
injected builtins, and the pandas module object bound to pd. -/
inductive PyVal where
  | ref (addr : Nat)
  | int (n : Int)
  | str (s : String)
  | none
  | builtin (nm : String)
  | pdModule
  deriving DecidableEq

/-- Expressions of the modelled program fragment: a name reference or a
literal. -/
inductive Expr where
  | name (x : String)
  | intLit (n : Int)
  | strLit (s : String)
  | noneLit
  deriving DecidableEq

/-- Statements of the modelled program fragment: binding a name,
evaluating an expression, or an in-place cell update on the table an
existing name refers to (df.iloc style assignment). -/
inductive Stmt where
  | assign (x : String) (e : Expr)
  | exprStmt (e : Expr)
  | setCell (x : String) (i j : Nat) (v : String)
  deriving DecidableEq

/-- The heap of live tables; addresses are list positions. -/
abbrev Heap := List Table

/-- The locals dict passed to exec, an association list from names to
values; the most recent binding for a name comes first. -/
abbrev Locals := List (String × PyVal)

/-- A representative set of names that CPython makes reachable through
the builtins module it injects into the empty globals dict that exec is
called with on line 156. -/
def builtinNames : List String :=
  ["len", "abs", "min", "max", "sum", "sorted", "print", "range",
   "open", "getattr", "setattr", "type", "str", "int", "float",
   "list", "dict", "__import__"]

/-- Lookup in the locals dict. -/
def lookup (L : Locals) (x : String) : Option PyVal :=
  match L.find? (fun p => p.1 == x) with
  | some p => some p.2
  | Option.none => Option.none

/-- Name resolution as exec performs it at line 156: the locals dict
first, then the globals dict, which is empty except for the builtins
CPython injects; an unbound name raises a NameError. -/
def lookupName (L : Locals) (x : String) : Except String PyVal :=
  match lookup L x with
  | some v => Except.ok v
  | Option.none =>
    if builtinNames.contains x then Except.ok (PyVal.builtin x)
    else Except.error ("NameError: name is not defined: " ++ x)

/-- Expression evaluation. -/
def evalExpr (L : Locals) : Expr → Except String PyVal
  | Expr.name x => lookupName L x
  | Expr.intLit n => Except.ok (PyVal.int n)
  | Expr.strLit s => Except.ok (PyVal.str s)
  | Expr.noneLit => Except.ok PyVal.none

/-- In-place cell update on a table; fails when an index is out of
range, as the corresponding pandas indexing assignment would. -/
def Table.setCell (t : Table) (i j : Nat) (v : String) : Option Table :=
  match t.rows[i]? with
  | Option.none => Option.none
  | some row =>
    match row[j]? with
    | Option.none => Option.none
    | some _ => some { t with rows := t.rows.set i (row.set j v) }

/-- One statement of the executed program: assignment rebinds a name in
the locals dict, an expression statement evaluates and discards, and a
cell update mutates the heap table the name refers to. -/
def execStmt (h : Heap) (L : Locals) : Stmt → Except String (Heap × Locals)
  | Stmt.assign x e =>
    match evalExpr L e with
    | Except.error m => Except.error m
    | Except.ok v => Except.ok (h, (x, v) :: L)
  | Stmt.exprStmt e =>
    match evalExpr L e with
    | Except.error m => Except.error m
    | Except.ok _ => Except.ok (h, L)
  | Stmt.setCell x i j v =>
    match lookupName L x with
    | Except.error m => Except.error m
    | Except.ok (PyVal.ref a) =>
      match h[a]? with
      | Option.none => Except.error "dangling reference"
      | some t =>
        match t.setCell i j v with
        | Option.none => Except.error "IndexError: index out of range"
        | some t2 => Except.ok (h.set a t2, L)
    | Except.ok _ => Except.error "TypeError: object does not support item assignment"

/-- The state after running a program: the heap and locals at the point
execution stopped, plus the exception message when a statement raised.
Mutations made before a raising statement persist, exactly as they do
for the dataframes passed by reference into exec. -/
structure ExecState where
  heap : Heap
  locals : Locals
  err : Option String
  deriving DecidableEq

/-- Running a list of statements in order, stopping at the first
exception. -/
def execStmts (h : Heap) (L : Locals) : List Stmt → ExecState
  | [] => { heap := h, locals := L, err := Option.none }
  | s :: rest =>
    match execStmt h L s with
    | Except.error m => { heap := h, locals := L, err := some m }
    | Except.ok (h2, L2) => execStmts h2 L2 rest

/-- The initial names bound in the locals dict built on lines 150-154:
the two dataframe handles and the pandas module handle. -/
def initNames : List String := ["df_deals", "df_orders", "pd"]

/-- Line 156 of src/app.py: exec(code, {}, local_vars) with local_vars
holding references to the two dataframes and the pandas module. -/
def runSandbox (deals orders : Table) (prog : List Stmt) : ExecState :=
  execStmts [deals, orders]
    [("df_deals", PyVal.ref 0), ("df_orders", PyVal.ref 1), ("pd", PyVal.pdModule)]
    prog

/-- Line 157 of src/app.py: local_vars.get(result-name), defaulting to
None when the program never assigned it. -/
def getResult (L : Locals) : PyVal :=
  (lookup L "result").getD PyVal.none

/-- The provenance footer appended to every formatted answer on lines
161 and 163. -/
def ansFooter : String := "\n\n*Analysis by gpt-oss-120b*"

/-- The textual representation an f-string interpolation produces for a
captured value that is not a DataFrame. -/
def pyStr : PyVal → String
  | PyVal.none => "None"
  | PyVal.int n => toString n
  | PyVal.str s => s
  | PyVal.builtin nm => "<built-in function " ++ nm ++ ">"
  | PyVal.pdModule => "<module pandas>"
  | PyVal.ref a => "<DataFrame at " ++ toString a ++ ">"

/-- Lines 160-163 of src/app.py: a DataFrame result is rendered as a
markdown table under an Answer heading with the provenance footer; any
other value is interpolated into a labeled Answer line with the same
footer. -/
def formatResult (h : Heap) (v : PyVal) : String :=
  match v with
  | PyVal.ref a =>
    match h[a]? with
    | some t => "**Answer:**\n\n" ++ renderTable t ++ ansFooter
    | Option.none => "**Answer:** " ++ pyStr (PyVal.ref a) ++ ansFooter
  | w => "**Answer:** " ++ pyStr w ++ ansFooter

/-- Lines 150-163 of src/app.py: run the program in the restricted
scope, extract the result binding, and format it; an exception during
execution propagates, to be caught by the try handler of ask_agent. -/
def execAndFormat (deals orders : Table) (prog : List Stmt) : Except String String :=
  let st := runSandbox deals orders prog
  match st.err with
  | some e => Except.error e
  | Option.none => Except.ok (formatResult st.heap (getResult st.locals))

/-- Character-list test that pat is a prefix of s. -/
def begWith : List Char → List Char → Bool
  | [], _ => true
  | _ :: _, [] => false
  | p :: ps, c :: cs => p == c && begWith ps cs

/-- Character-list test that pat occurs as a contiguous segment of s,
modelling the Python substring operator used on line 148. -/
def hasSeg (pat : List Char) : List Char → Bool
  | [] => false
  | c :: rest => begWith pat (c :: rest) || hasSeg pat rest

/-- Splitting at the first occurrence of pat: the part strictly before
the occurrence and the part strictly after it, or nothing when pat does
not occur. -/
def splitAtFirst (pat : List Char) : List Char → Option (List Char × List Char)
  | [] => Option.none
  | c :: rest =>
    if begWith pat (c :: rest) then some ([], (c :: rest).drop pat.length)
    else
      match splitAtFirst pat rest with
      | some (x, y) => some (c :: x, y)
      | Option.none => Option.none

/-- Fuelled worker for Python str.split: repeatedly cut at the leftmost
occurrence of the separator. -/
def splitSegF (fuel : Nat) (pat : List Char) (s : List Char) : List (List Char) :=
  match fuel with
  | 0 => [s]
  | fuel2 + 1 =>
    match splitAtFirst pat s with
    | Option.none => [s]
    | some (x, y) => x :: splitSegF fuel2 pat y

/-- Python str.split with a nonempty separator: every occurrence of the
separator cuts, leftmost first; the fuel bound is never reached because
each cut strictly shortens the remainder. -/
def pySplit (pat : List Char) (s : List Char) : List (List Char) :=
  splitSegF (s.length + 1) pat s

/-- Python str.strip(): remove whitespace from both ends. -/
def trimChars (s : List Char) : List Char :=
  ((s.dropWhile Char.isWhitespace).reverse.dropWhile Char.isWhitespace).reverse

/-- The literal opening marker the extractor keys on. -/
def pythonTagChars : List Char := "```python".data

/-- The literal closing fence marker. -/
def fenceChars : List Char := "```".data

/-- The backtick character, taken from the marker. -/
def btick : Char := pythonTagChars.headD 'x'

/-- Line 148 of src/app.py: the check whether the completion text
contains the literal python fence marker anywhere. -/
def hasPythonTag (text : String) : Bool := hasSeg pythonTagChars text.data

/-- Line 149 of src/app.py, character-list form: split the text on the
python marker, take piece 1, split that on the bare fence, take piece 0,
and strip whitespace. -/
def extractCodeL (s : List Char) : List Char :=
  trimChars (((pySplit fenceChars ((pySplit pythonTagChars s).getD 1 [])).getD 0 []))

/-- Line 149 of src/app.py on strings. -/
def extractCode (text : String) : String := String.mk (extractCodeL text.data)

/-- Line 106 of src/app.py: the message returned before any remote call
when no API key is configured. -/
def keyMissingText : String := "⚠️ Please enter your OpenRouter API Key in the sidebar."

/-- Line 168 of src/app.py: the message the except handler converts any
caught exception into. -/
def errText (e : String) : String :=
  "❌ Error: " ++ e ++ "\n\nPlease try rephrasing your question or check the data."

/-- Lines 104-168 of src/app.py: the full agent. The remote completion
service is a parameter producing either a transport or service failure
or raw response text for the prompt it is sent; the Python parser that
exec applies to the extracted code text is a parameter producing either
a syntax failure or a program of the modelled fragment.  Every failure
of the completion call, the parse, or the execution is caught and
converted to the error message; a response without the python marker is
returned verbatim. -/
def askAgent (query : String) (deals orders : Table) (key : String)
    (completionOf : String → Except String String)
    (parse : String → Except String (List Stmt)) : String :=
  if key = "" then keyMissingText
  else
    match completionOf (buildPrompt deals orders query) with
    | Except.error e => errText e
    | Except.ok text =>
      if hasPythonTag text then
        match parse (extractCode text) with
        | Except.error e => errText e
        | Except.ok prog =>
          let st := runSandbox deals orders prog
          match st.err with
          | some e => errText e
          | Option.none => formatResult st.heap (getResult st.locals)
      else text

/-! Syntactic analyses of modelled programs, used to state the claims
about the executor. -/

/-- The names an expression reads. -/
def exprRefs : Expr → List String
  | Expr.name x => [x]
  | _ => []

/-- The names a program references before ever binding them, starting
from the given set of already bound names. -/
def freeRefs (bound : List String) : List Stmt → List String
  | [] => []
  | Stmt.assign x e :: rest =>
    (exprRefs e).filter (fun n => !(bound.contains n)) ++ freeRefs (x :: bound) rest
  | Stmt.exprStmt e :: rest =>
    (exprRefs e).filter (fun n => !(bound.contains n)) ++ freeRefs bound rest
  | Stmt.setCell x _ _ _ :: rest =>
    (if bound.contains x then [] else [x]) ++ freeRefs bound rest

/-- The names a program binds by assignment. -/
def assignedNames : List Stmt → List String
  | [] => []
  | Stmt.assign x _ :: rest => x :: assignedNames rest
  | _ :: rest => assignedNames rest

/-- Whether a statement mutates a table in place. -/
def Stmt.isMutation : Stmt → Bool
  | Stmt.setCell _ _ _ _ => true
  | _ => false

/-! Facts about the splitting primitives used by the code extractor. -/

theorem begWith_iff_take : ∀ (p s : List Char), begWith p s = true ↔ s.take p.length = p
  | [], s => by simp [begWith]
  | p :: ps, [] => by simp [begWith]
  | p :: ps, c :: cs => by
    simp only [begWith, Bool.and_eq_true, beq_iff_eq, List.length_cons,
      List.take_succ_cons, List.cons.injEq, begWith_iff_take ps cs]
    constructor
    · rintro ⟨h1, h2⟩; exact ⟨h1.symm, h2⟩
    · rintro ⟨h1, h2⟩; exact ⟨h1.symm, h2⟩

theorem begWith_append_self (p r : List Char) : begWith p (p ++ r) = true := by
  rw [begWith_iff_take]; exact List.take_left p r

theorem begWith_length_le (p s : List Char) (h : begWith p s = true) :
    p.length ≤ s.length := by
  rw [begWith_iff_take] at h
  by_contra hlt
  push_neg at hlt
  rw [List.take_of_length_le (Nat.le_of_lt hlt)] at h
  subst h
  exact absurd hlt (by omega)

theorem begWith_mono (p u w : List Char) (h : begWith p u = true) :
    begWith p (u ++ w) = true := by
  have hle := begWith_length_le p u h
  rw [begWith_iff_take] at h ⊢
  rw [List.take_append_eq_append_take, Nat.sub_eq_zero_of_le hle, List.take_zero,
    List.append_nil, h]

theorem hasSeg_mono (pat u w : List Char) (h : hasSeg pat u = true) :
    hasSeg pat (u ++ w) = true := by
  induction u with
  | nil => simp [hasSeg] at h
  | cons c cs ih =>
    simp only [hasSeg, Bool.or_eq_true] at h
    rcases h with h | h
    · have := begWith_mono pat (c :: cs) w h
      simp only [List.cons_append] at this
      simp [hasSeg, this]
    · simp [hasSeg, ih h]

theorem splitAtFirst_some :
    ∀ (pat s x y : List Char), splitAtFirst pat s = some (x, y) → s = x ++ pat ++ y
  | pat, [], x, y => by simp [splitAtFirst]
  | pat, c :: rest, x, y => by
    intro h
    simp only [splitAtFirst] at h
    by_cases hb : begWith pat (c :: rest) = true
    · rw [if_pos hb] at h
      have h2 := Option.some.inj h
      have hx1 : x = [] := (congrArg Prod.fst h2).symm
      have hy1 : y = (c :: rest).drop pat.length := (congrArg Prod.snd h2).symm
      subst hx1; subst hy1
      rw [begWith_iff_take] at hb
      conv_lhs => rw [← List.take_append_drop pat.length (c :: rest)]
      rw [hb, List.nil_append]
    · rw [if_neg hb] at h
      rcases hsp : splitAtFirst pat rest with _ | p2
      · rw [hsp] at h; exact absurd h (by simp)
      · obtain ⟨x2, y2⟩ := p2
        rw [hsp] at h
        have h2 := Option.some.inj h
        have hx1 : x = c :: x2 := (congrArg Prod.fst h2).symm
        have hy1 : y = y2 := (congrArg Prod.snd h2).symm
        subst hx1; subst hy1
        have := splitAtFirst_some pat rest x2 y hsp
        rw [List.cons_append, List.cons_append, ← this]

theorem dropLast_cons_ne (x : Char) (z : List Char) (hz : z ≠ []) :
    (x :: z).dropLast = x :: z.dropLast := by
  cases z with
  | nil => exact absurd rfl hz
  | cons b t => rfl

theorem dropLast_append_ne (u z : List Char) (hz : z ≠ []) :
    (u ++ z).dropLast = u ++ z.dropLast := by
  induction u with
  | nil => rfl
  | cons d u2 ih =>
    have hne : u2 ++ z ≠ [] := by
      intro hc; exact hz (List.append_eq_nil.mp hc).2
    rw [List.cons_append, dropLast_cons_ne d (u2 ++ z) hne, ih, List.cons_append]

theorem splitAtFirst_insert (pat : List Char) (hp : pat ≠ []) :
    ∀ (a r : List Char), hasSeg pat ((a ++ pat).dropLast) = false →
      splitAtFirst pat (a ++ (pat ++ r)) = some (a, r)
  | [], r, _ => by
    rcases pat with _ | ⟨q, qs⟩
    · exact absurd rfl hp
    · have hb : begWith (q :: qs) (q :: (qs ++ r)) = true := by
        have h0 := begWith_append_self (q :: qs) r
        rwa [List.cons_append] at h0
      rw [List.nil_append, List.cons_append]
      simp only [splitAtFirst]
      rw [if_pos hb]
      have hdrop : (q :: (qs ++ r)).drop (q :: qs).length = r := by
        simp only [List.length_cons, List.drop_succ_cons]
        exact List.drop_left qs r
      rw [hdrop]
  | ch :: a2, r, h => by
    have hne : a2 ++ pat ≠ [] := by
      intro hc; exact hp (List.append_eq_nil.mp hc).2
    rw [List.cons_append, dropLast_cons_ne ch (a2 ++ pat) hne] at h
    simp only [hasSeg, Bool.or_eq_false_iff] at h
    obtain ⟨hbw, hseg⟩ := h
    have hbfalse : ¬ begWith pat (ch :: (a2 ++ (pat ++ r))) = true := by
      intro hbt
      rcases hq : pat with _ | ⟨q, qs⟩
      · exact absurd hq hp
      · have hlen : pat.length = qs.length + 1 := by rw [hq]; rfl
        rw [begWith_iff_take, hlen, List.take_succ_cons] at hbt
        have htake : (a2 ++ pat).dropLast.take qs.length
            = (a2 ++ (pat ++ r)).take qs.length := by
          rw [List.dropLast_eq_take, List.take_take]
          have hle2 : qs.length ≤ (a2 ++ pat).length - 1 := by
            rw [List.length_append, hlen]; omega
          rw [Nat.min_eq_left hle2, ← List.append_assoc]
          conv_rhs => rw [List.take_append_eq_append_take]
          have hz : qs.length - (a2 ++ pat).length = 0 := by
            rw [List.length_append, hlen]; omega
          rw [hz, List.take_zero, List.append_nil]
        rw [← htake] at hbt
        have hbt2 : begWith pat (ch :: (a2 ++ pat).dropLast) = true := by
          rw [begWith_iff_take, hlen, List.take_succ_cons, hbt]
        rw [hbt2] at hbw
        exact absurd hbw (by decide)
    have hrec := splitAtFirst_insert pat hp a2 r hseg
    rw [List.cons_append]
    simp only [splitAtFirst]
    rw [if_neg hbfalse, hrec]

theorem splitAtFirst_min (pat : List Char) :
    ∀ (s x y : List Char), splitAtFirst pat s = some (x, y) →
      ∀ (u v : List Char), s = u ++ pat ++ v → x.length ≤ u.length
  | [], x, y => by simp [splitAtFirst]
  | c :: rest, x, y => by
    intro h u v hdec
    simp only [splitAtFirst] at h
    by_cases hb : begWith pat (c :: rest) = true
    · rw [if_pos hb] at h
      have hx1 : x = [] := (congrArg Prod.fst (Option.some.inj h)).symm
      subst hx1
      exact Nat.zero_le _
    · rw [if_neg hb] at h
      rcases hsp : splitAtFirst pat rest with _ | p2
      · rw [hsp] at h; exact absurd h (by simp)
      · obtain ⟨x2, y2⟩ := p2
        rw [hsp] at h
        have h2 := Option.some.inj h
        have hx1 : x = c :: x2 := (congrArg Prod.fst h2).symm
        subst hx1
        rcases u with _ | ⟨d, u2⟩
        · exfalso
          rw [List.nil_append] at hdec
          rw [hdec] at hb
          exact hb (begWith_append_self pat v)
        · rw [List.cons_append, List.cons_append] at hdec
          have hrest : rest = u2 ++ pat ++ v := (List.cons.inj hdec).2
          have := splitAtFirst_min pat rest x2 y2 hsp u2 v hrest
          simp only [List.length_cons]
          omega

theorem splitAtFirst_none_iff (pat : List Char) :
    ∀ (s : List Char), splitAtFirst pat s = Option.none ↔ hasSeg pat s = false
  | [] => by simp [splitAtFirst, hasSeg]
  | c :: rest => by
    simp only [splitAtFirst, hasSeg, Bool.or_eq_false_iff]
    by_cases hb : begWith pat (c :: rest) = true
    · rw [if_pos hb]
      simp [hb]
    · rw [if_neg hb]
      rcases hsp : splitAtFirst pat rest with _ | p2
      · simp only [Bool.not_eq_true] at hb
        simp [hb, (splitAtFirst_none_iff pat rest).mp hsp]
      · obtain ⟨x2, y2⟩ := p2
        have hseg : hasSeg pat rest = true := by
          by_contra hf
          rw [Bool.not_eq_true] at hf
          rw [(splitAtFirst_none_iff pat rest).mpr hf] at hsp
          exact absurd hsp (by simp)
        simp [hseg]

theorem hasSeg_of_split (pat s x y : List Char) (h : splitAtFirst pat s = some (x, y)) :
    hasSeg pat s = true := by
  by_contra hf
  rw [Bool.not_eq_true] at hf
  rw [(splitAtFirst_none_iff pat s).mpr hf] at h
  exact absurd h (by simp)

theorem splitSegF_congr (pat : List Char) (hp : pat ≠ []) :
    ∀ (f1 f2 : Nat) (s : List Char), s.length < f1 → s.length < f2 →
      splitSegF f1 pat s = splitSegF f2 pat s
  | 0, _, s => by omega
  | _ + 1, 0, s => by omega
  | f1 + 1, f2 + 1, s => by
    intro h1 h2
    rcases hsp : splitAtFirst pat s with _ | p2
    · simp only [splitSegF, hsp]
    · obtain ⟨x, y⟩ := p2
      simp only [splitSegF, hsp]
      have hdec := splitAtFirst_some pat s x y hsp
      have hlen : y.length < s.length := by
        rw [hdec]
        simp only [List.length_append]
        have : 1 ≤ pat.length := by
          rcases pat with _ | ⟨q, qs⟩
          · exact absurd rfl hp
          · simp
        omega
      rw [splitSegF_congr pat hp f1 f2 y (by omega) (by omega)]

theorem pySplit_none (pat s : List Char) (h : splitAtFirst pat s = Option.none) :
    pySplit pat s = [s] := by
  simp only [pySplit, splitSegF, h]

theorem pySplit_cons (pat : List Char) (hp : pat ≠ []) (s x y : List Char)
    (h : splitAtFirst pat s = some (x, y)) : pySplit pat s = x :: pySplit pat y := by
  have hdec := splitAtFirst_some pat s x y h
  have hlen : y.length < s.length := by
    rw [hdec]
    simp only [List.length_append]
    have : 1 ≤ pat.length := by
      rcases pat with _ | ⟨q, qs⟩
      · exact absurd rfl hp
      · simp
    omega
  have hstep : splitSegF (s.length + 1) pat s = x :: splitSegF s.length pat y := by
    simp only [splitSegF, h]
  show splitSegF (s.length + 1) pat s = x :: pySplit pat y
  rw [hstep, pySplit, splitSegF_congr pat hp s.length (y.length + 1) y hlen (by omega)]

/-- Claim C4: for every completion response containing one or more
fenced code blocks, the Code Extractor returns exactly the content of
the first fenced block (as the extractor returns it: whitespace
trimmed); all later blocks and all trailing content after the first
closing fence are discarded.  The response decomposes as prefix a,
opening marker, block content b, closing fence, and arbitrary trailing
text c, which may contain any number of further blocks and never
influences the result.  The hypotheses say the marker does not occur
before the position shown, the closing fence does not occur before the
position shown, and the trailing text does not begin with a backtick
(which would glue onto the closing fence). -/
theorem extract_first_block (a b c : List Char)
    (h1 : hasSeg pythonTagChars ((a ++ pythonTagChars).dropLast) = false)
    (h2 : hasSeg fenceChars ((b ++ fenceChars).dropLast) = false)
    (h3 : c.take 1 ≠ [btick]) :
    hasSeg pythonTagChars (a ++ (pythonTagChars ++ (b ++ (fenceChars ++ c)))) = true ∧
    extractCodeL (a ++ (pythonTagChars ++ (b ++ (fenceChars ++ c)))) = trimChars b := by
  have hTne : pythonTagChars ≠ [] := by decide
  have hFne : fenceChars ≠ [] := by decide
  have split1 : splitAtFirst pythonTagChars
      (a ++ (pythonTagChars ++ (b ++ (fenceChars ++ c))))
      = some (a, b ++ (fenceChars ++ c)) :=
    splitAtFirst_insert pythonTagChars hTne a (b ++ (fenceChars ++ c)) h1
  have split2 : splitAtFirst fenceChars (b ++ (fenceChars ++ c)) = some (b, c) :=
    splitAtFirst_insert fenceChars hFne b c h2
  constructor
  · exact hasSeg_of_split _ _ _ _ split1
  · simp only [extractCodeL]
    rw [pySplit_cons pythonTagChars hTne _ a (b ++ (fenceChars ++ c)) split1,
      List.getD_cons_succ]
    rcases hsp : splitAtFirst pythonTagChars (b ++ (fenceChars ++ c)) with _ | p2
    · rw [pySplit_none _ _ hsp, List.getD_cons_zero,
        pySplit_cons fenceChars hFne _ b c split2, List.getD_cons_zero]
    · obtain ⟨x, y⟩ := p2
      rw [pySplit_cons pythonTagChars hTne _ x y hsp, List.getD_cons_zero]
      have hdec := splitAtFirst_some pythonTagChars _ x y hsp
      have htag : pythonTagChars = fenceChars ++ "python".data := by decide
      have hdec2 : b ++ (fenceChars ++ c) = x ++ fenceChars ++ ("python".data ++ y) := by
        rw [hdec, htag]
        simp [List.append_assoc]
      have hmin : b.length ≤ x.length :=
        splitAtFirst_min fenceChars _ b c split2 x ("python".data ++ y) hdec2
      have hr2 : b ++ (fenceChars ++ c) = x ++ (pythonTagChars ++ y) := by
        rw [hdec, List.append_assoc]
      have hxb : x = (b ++ (fenceChars ++ c)).take x.length := by
        rw [hr2, List.take_left x _]
      have hcases : x.length = b.length ∨ x.length = b.length + 1 ∨
          x.length = b.length + 2 ∨ b.length + 3 ≤ x.length := by omega
      rcases hcases with he | he | he | hge
      · have hxb2 : x = b := by
          have hb2 : b = (b ++ (fenceChars ++ c)).take b.length :=
            (List.take_left b _).symm
          rw [hxb, he, ← hb2]
        rw [hxb2]
        have hsegb : hasSeg fenceChars b = false := by
          by_contra hf
          rw [Bool.not_eq_false] at hf
          have hmono := hasSeg_mono fenceChars b fenceChars.dropLast hf
          rw [← dropLast_append_ne b fenceChars hFne] at hmono
          rw [hmono] at h2
          exact absurd h2 (by decide)
        rw [pySplit_none fenceChars b ((splitAtFirst_none_iff fenceChars b).mpr hsegb),
          List.getD_cons_zero]
      · exfalso
        have hx2 : x = b ++ [btick] := by
          rw [hxb, he, List.take_append_eq_append_take,
            List.take_of_length_le (by omega),
            show b.length + 1 - b.length = 1 from by omega,
            show (fenceChars ++ c).take 1 = [btick] from by
              rw [show fenceChars = [btick, btick, btick] from by decide]; rfl]
        rw [hx2] at hr2
        rw [List.append_assoc] at hr2
        have hceq := List.append_cancel_left hr2
        rw [show fenceChars = [btick, btick, btick] from by decide,
          show pythonTagChars = [btick, btick, btick, 'p', 'y', 't', 'h', 'o', 'n']
            from by decide] at hceq
        simp only [List.cons_append, List.nil_append, List.cons.injEq, true_and] at hceq
        exact h3 (by rw [hceq]; rfl)
      · exfalso
        have hx2 : x = b ++ [btick, btick] := by
          rw [hxb, he, List.take_append_eq_append_take,
            List.take_of_length_le (by omega),
            show b.length + 2 - b.length = 2 from by omega,
            show (fenceChars ++ c).take 2 = [btick, btick] from by
              rw [show fenceChars = [btick, btick, btick] from by decide]; rfl]
        rw [hx2] at hr2
        rw [List.append_assoc] at hr2
        have hceq := List.append_cancel_left hr2
        rw [show fenceChars = [btick, btick, btick] from by decide,
          show pythonTagChars = [btick, btick, btick, 'p', 'y', 't', 'h', 'o', 'n']
            from by decide] at hceq
        simp only [List.cons_append, List.nil_append, List.cons.injEq, true_and] at hceq
        exact h3 (by rw [hceq]; rfl)
      · have hFlen : fenceChars.length = 3 := by decide
        have hbF : b ++ fenceChars = (b ++ (fenceChars ++ c)).take (b.length + 3) := by
          rw [List.take_append_eq_append_take, List.take_of_length_le (by omega),
            show b.length + 3 - b.length = 3 from by omega,
            show (3 : Nat) = fenceChars.length from by decide, List.take_left]
        have hxdecomp : x = b ++ (fenceChars ++ x.drop (b.length + 3)) := by
          have htk : x.take (b.length + 3) = b ++ fenceChars := by
            rw [hxb, List.take_take, Nat.min_eq_left (by omega), ← hbF]
          conv_lhs => rw [← List.take_append_drop (b.length + 3) x]
          rw [htk, List.append_assoc]
        have split3 : splitAtFirst fenceChars x = some (b, x.drop (b.length + 3)) := by
          conv_lhs => rw [hxdecomp]
          exact splitAtFirst_insert fenceChars hFne b _ h2
        rw [pySplit_cons fenceChars hFne x b _ split3, List.getD_cons_zero]

theorem lookup_eq_none : ∀ (L : Locals) (x : String),
    x ∉ L.map Prod.fst → lookup L x = Option.none
  | [], _, _ => rfl
  | p :: L, x, h => by
    simp only [List.map_cons, List.mem_cons, not_or] at h
    obtain ⟨h1, h2⟩ := h
    have hbeq : (p.1 == x) = false := by
      rw [beq_eq_false_iff_ne]
      exact fun hc => h1 hc.symm
    simp only [lookup, List.find?, hbeq]
    have hrec := lookup_eq_none L x h2
    simpa [lookup] using hrec

theorem execStmts_keys (p : List Stmt) : ∀ (hp : Heap) (L : Locals),
    (execStmts hp L p).err = Option.none →
    ∀ x, x ∈ (execStmts hp L p).locals.map Prod.fst →
      x ∈ assignedNames p ++ L.map Prod.fst := by
  induction p with
  | nil =>
    intro hp L _ x hx
    simpa [execStmts, assignedNames] using hx
  | cons s rest ih =>
    intro hp L herr x hx
    rcases hex : execStmt hp L s with m | hl2
    · simp [execStmts, hex] at herr
    · obtain ⟨h2, L2⟩ := hl2
      simp only [execStmts, hex] at herr hx
      cases s with
      | assign z e =>
        rcases hev : evalExpr L e with m | v
        · simp [execStmt, hev] at hex
        · simp only [execStmt, hev] at hex
          have hL2 : L2 = (z, v) :: L := (congrArg Prod.snd (Except.ok.inj hex)).symm
          rw [hL2] at hx herr
          have := ih h2 ((z, v) :: L) herr x hx
          simp only [assignedNames, List.map_cons, List.mem_append, List.mem_cons] at this ⊢
          tauto
      | exprStmt e =>
        rcases hev : evalExpr L e with m | v
        · simp [execStmt, hev] at hex
        · simp only [execStmt, hev] at hex
          have hL2 : L2 = L := (congrArg Prod.snd (Except.ok.inj hex)).symm
          rw [hL2] at hx herr
          have := ih h2 L herr x hx
          simp only [assignedNames, List.mem_append] at this ⊢
          tauto
      | setCell z i j v =>
        have hL2 : L2 = L := by
          rcases hlk : lookupName L z with m | w
          · simp [execStmt, hlk] at hex
          · cases w with
            | ref a =>
              rcases hha : hp[a]? with _ | t
              · simp [execStmt, hlk, hha] at hex
              · rcases hsc : t.setCell i j v with _ | t2
                · simp [execStmt, hlk, hha, hsc] at hex
                · simp only [execStmt, hlk, hha, hsc] at hex
                  exact (congrArg Prod.snd (Except.ok.inj hex)).symm
            | int n => simp [execStmt, hlk] at hex
            | str s2 => simp [execStmt, hlk] at hex
            | none => simp [execStmt, hlk] at hex
            | builtin nm => simp [execStmt, hlk] at hex
            | pdModule => simp [execStmt, hlk] at hex
        rw [hL2] at hx herr
        have := ih h2 L herr x hx
        simp only [assignedNames, List.mem_append] at this ⊢
        tauto

theorem contains_iff_memS (l : List String) (x : String) : l.contains x = true ↔ x ∈ l := by
  simp

theorem evalExpr_name_builtin (L : Locals) (x : String) (v : PyVal)
    (hev : evalExpr L (Expr.name x) = Except.ok v)
    (hnm : x ∉ L.map Prod.fst) : builtinNames.contains x = true := by
  have hlkn := lookup_eq_none L x hnm
  simp only [evalExpr, lookupName, hlkn] at hev
  by_cases hbn : builtinNames.contains x = true
  · exact hbn
  · rw [if_neg hbn] at hev
    exact absurd hev (by simp)

theorem execStmt_ok_assign (hp : Heap) (L : Locals) (z : String) (e : Expr)
    (h2 : Heap) (L2 : Locals)
    (hex : execStmt hp L (Stmt.assign z e) = Except.ok (h2, L2)) :
    h2 = hp ∧ ∃ v, evalExpr L e = Except.ok v ∧ L2 = (z, v) :: L := by
  rcases hev : evalExpr L e with m | v
  · simp [execStmt, hev] at hex
  · simp only [execStmt, hev] at hex
    have hpair := Except.ok.inj hex
    exact ⟨(congrArg Prod.fst hpair).symm, v, rfl, (congrArg Prod.snd hpair).symm⟩

theorem execStmt_ok_expr (hp : Heap) (L : Locals) (e : Expr) (h2 : Heap) (L2 : Locals)
    (hex : execStmt hp L (Stmt.exprStmt e) = Except.ok (h2, L2)) :
    h2 = hp ∧ L2 = L ∧ ∃ v, evalExpr L e = Except.ok v := by
  rcases hev : evalExpr L e with m | v
  · simp [execStmt, hev] at hex
  · simp only [execStmt, hev] at hex
    have hpair := Except.ok.inj hex
    exact ⟨(congrArg Prod.fst hpair).symm, (congrArg Prod.snd hpair).symm, v, rfl⟩

theorem execStmt_ok_setCell (hp : Heap) (L : Locals) (z : String) (i j : Nat) (v : String)
    (h2 : Heap) (L2 : Locals)
    (hex : execStmt hp L (Stmt.setCell z i j v) = Except.ok (h2, L2)) :
    L2 = L ∧ lookup L z ≠ Option.none := by
  rcases hlk : lookupName L z with m | w
  · simp [execStmt, hlk] at hex
  · cases w with
    | ref a =>
      rcases hha : hp[a]? with _ | t
      · simp [execStmt, hlk, hha] at hex
      · rcases hsc : t.setCell i j v with _ | t2
        · simp [execStmt, hlk, hha, hsc] at hex
        · simp only [execStmt, hlk, hha, hsc] at hex
          refine ⟨(congrArg Prod.snd (Except.ok.inj hex)).symm, ?_⟩
          intro hn
          simp only [lookupName, hn] at hlk
          by_cases hbn : builtinNames.contains z = true
          · rw [if_pos hbn] at hlk; simp at hlk
          · rw [if_neg hbn] at hlk; simp at hlk
    | int n => simp [execStmt, hlk] at hex
    | str s2 => simp [execStmt, hlk] at hex
    | none => simp [execStmt, hlk] at hex
    | builtin nm => simp [execStmt, hlk] at hex
    | pdModule => simp [execStmt, hlk] at hex

theorem execStmt_heap_eq (hp : Heap) (L : Locals) (s : Stmt) (h2 : Heap) (L2 : Locals)
    (hmut : s.isMutation = false) (hex : execStmt hp L s = Except.ok (h2, L2)) :
    h2 = hp := by
  cases s with
  | assign z e => exact (execStmt_ok_assign hp L z e h2 L2 hex).1
  | exprStmt e => exact (execStmt_ok_expr hp L e h2 L2 hex).1
  | setCell z i j v => simp [Stmt.isMutation] at hmut

theorem execStmts_heap (p : List Stmt) : ∀ (hp : Heap) (L : Locals),
    (∀ s ∈ p, s.isMutation = false) → (execStmts hp L p).heap = hp := by
  induction p with
  | nil => intro hp L _; rfl
  | cons s rest ih =>
    intro hp L hmut
    rcases hex : execStmt hp L s with m | hl2
    · simp [execStmts, hex]
    · obtain ⟨h2, L2⟩ := hl2
      simp only [execStmts, hex]
      have hs : s.isMutation = false := hmut s (by simp)
      have hrest : ∀ s2 ∈ rest, s2.isMutation = false :=
        fun s2 hs2 => hmut s2 (by simp [hs2])
      rw [ih h2 L2 hrest, execStmt_heap_eq hp L s h2 L2 hs hex]

theorem execStmts_free (p : List Stmt) : ∀ (hp : Heap) (L : Locals),
    (execStmts hp L p).err = Option.none →
    ∀ x, x ∈ freeRefs (L.map Prod.fst) p → builtinNames.contains x = true := by
  induction p with
  | nil => intro hp L _ x hx; simp [freeRefs] at hx
  | cons s rest ih =>
    intro hp L herr x hx
    rcases hex : execStmt hp L s with m | hl2
    · simp [execStmts, hex] at herr
    · obtain ⟨h2, L2⟩ := hl2
      simp only [execStmts, hex] at herr
      cases s with
      | assign z e =>
        obtain ⟨hh2, v, hev, hL2⟩ := execStmt_ok_assign hp L z e h2 L2 hex
        simp only [freeRefs, List.mem_append] at hx
        rcases hx with hx | hx
        · rw [List.mem_filter] at hx
          obtain ⟨hmem, hflt⟩ := hx
          cases e with
          | name y =>
            simp only [exprRefs, List.mem_singleton] at hmem
            subst hmem
            rw [Bool.not_eq_true'] at hflt
            have hnm : x ∉ L.map Prod.fst := by
              intro hc
              rw [(contains_iff_memS (L.map Prod.fst) x).mpr hc] at hflt
              exact absurd hflt (by simp)
            exact evalExpr_name_builtin L x v hev hnm
          | intLit n => simp [exprRefs] at hmem
          | strLit s2 => simp [exprRefs] at hmem
          | noneLit => simp [exprRefs] at hmem
        · rw [hL2] at herr
          refine ih h2 ((z, v) :: L) herr x ?_
          simpa using hx
      | exprStmt e =>
        obtain ⟨hh2, hL2, v, hev⟩ := execStmt_ok_expr hp L e h2 L2 hex
        simp only [freeRefs, List.mem_append] at hx
        rcases hx with hx | hx
        · rw [List.mem_filter] at hx
          obtain ⟨hmem, hflt⟩ := hx
          cases e with
          | name y =>
            simp only [exprRefs, List.mem_singleton] at hmem
            subst hmem
            rw [Bool.not_eq_true'] at hflt
            have hnm : x ∉ L.map Prod.fst := by
              intro hc
              rw [(contains_iff_memS (L.map Prod.fst) x).mpr hc] at hflt
              exact absurd hflt (by simp)
            exact evalExpr_name_builtin L x v hev hnm
          | intLit n => simp [exprRefs] at hmem
          | strLit s2 => simp [exprRefs] at hmem
          | noneLit => simp [exprRefs] at hmem
        · rw [hL2] at herr
          exact ih h2 L herr x hx
      | setCell z i j v =>
        obtain ⟨hL2, hlkz⟩ := execStmt_ok_setCell hp L z i j v h2 L2 hex
        simp only [freeRefs, List.mem_append] at hx
        rcases hx with hx | hx
        · by_cases hcz : (L.map Prod.fst).contains z = true
          · rw [if_pos hcz] at hx
            simp at hx
          · rw [if_neg hcz] at hx
            simp only [List.mem_singleton] at hx
            subst hx
            exfalso
            have hnm : x ∉ L.map Prod.fst := by
              intro hc
              exact hcz ((contains_iff_memS (L.map Prod.fst) x).mpr hc)
            exact hlkz (lookup_eq_none L x hnm)
        · rw [hL2] at herr
          exact ih h2 L herr x hx

/-! The claim theorems. -/

theorem ansSplit1 (s : String) : "**Answer:** " ++ s = "**Answer:**" ++ (" " ++ s) := by
  rw [show ("**Answer:** " : String) = "**Answer:**" ++ " " from by decide,
    String.append_assoc]

theorem ansSplit2 (s : String) :
    "**Answer:**\n\n" ++ s = "**Answer:**" ++ ("\n\n" ++ s) := by
  rw [show ("**Answer:**\n\n" : String) = "**Answer:**" ++ "\n\n" from by decide,
    String.append_assoc]

/-- Claim C1 counterexample: the program that merely reads the builtin
name len, a binding other than the three provided ones, executes
without error, because exec with an empty globals dict still exposes
the injected builtins.  The name len is not among the three provided
bindings, it is a free reference of the program, and execution
nevertheless succeeds. -/
theorem c1_counterexample :
    initNames.contains "len" = false ∧
    (freeRefs initNames [Stmt.assign "result" (Expr.name "len")]).contains "len" = true ∧
    (runSandbox (Table.mk [] []) (Table.mk [] [])
      [Stmt.assign "result" (Expr.name "len")]).err = Option.none :=
  ⟨by decide, by decide, by decide⟩

/-- Claim C1 (amended): the bindings visible to the executed code are
the two dataset handles, the pandas handle, and the builtins that exec
injects into its empty globals dict; a program whose free references
include a name outside both the three provided bindings and the
builtins fails at execution time and never succeeds silently. -/
theorem c1_sandbox_names (deals orders : Table) (prog : List Stmt) (x : String)
    (hfree : x ∈ freeRefs initNames prog)
    (hnb : builtinNames.contains x = false) :
    (runSandbox deals orders prog).err ≠ Option.none := by
  intro herr
  have hbn := execStmts_free prog [deals, orders]
    [("df_deals", PyVal.ref 0), ("df_orders", PyVal.ref 1), ("pd", PyVal.pdModule)]
    herr x hfree
  rw [hbn] at hnb
  exact absurd hnb (by decide)

/-- Witness for the amended claim C1 at the concrete program that reads
the unbound name os. -/
theorem c1_sandbox_names_witness :
    (runSandbox (Table.mk [] []) (Table.mk [] [])
      [Stmt.exprStmt (Expr.name "os")]).err ≠ Option.none :=
  c1_sandbox_names (Table.mk [] []) (Table.mk [] [])
    [Stmt.exprStmt (Expr.name "os")] "os" (by decide) (by decide)

/-- Claim C2 counterexample: a program that runs without raising and
never assigns result does not make the executor fail; the agent
silently returns a success value formatting None, because line 157 uses
a defaulting dictionary get and no ExecutionResultMissingError exists
in the code. -/
theorem c2_counterexample :
    (assignedNames [Stmt.assign "x" (Expr.intLit 1)]).contains "result" = false ∧
    execAndFormat (Table.mk [] []) (Table.mk [] []) [Stmt.assign "x" (Expr.intLit 1)]
      = Except.ok ("**Answer:** None\n\n*Analysis by gpt-oss-120b*") :=
  ⟨by decide, by rfl⟩

/-- Claim C2 (amended): for every program that executes without raising
and does not assign result, the executor succeeds with the captured
result defaulting to None, and the agent returns the Answer line
formatting None with the provenance footer; no error is reported. -/
theorem c2_missing_result (deals orders : Table) (prog : List Stmt)
    (hnot : "result" ∉ assignedNames prog)
    (herr : (runSandbox deals orders prog).err = Option.none) :
    execAndFormat deals orders prog
      = Except.ok ("**Answer:** None\n\n*Analysis by gpt-oss-120b*") := by
  have hlk : lookup (runSandbox deals orders prog).locals "result" = Option.none := by
    apply lookup_eq_none
    intro hc
    have hmem := execStmts_keys prog [deals, orders]
      [("df_deals", PyVal.ref 0), ("df_orders", PyVal.ref 1), ("pd", PyVal.pdModule)]
      herr "result" hc
    rcases List.mem_append.mp hmem with hmem2 | hmem2
    · exact hnot hmem2
    · exact absurd hmem2 (by decide)
  have hget : getResult (runSandbox deals orders prog).locals = PyVal.none := by
    simp only [getResult, hlk]
    rfl
  simp only [execAndFormat, herr, hget]
  rfl

/-- Witness for the amended claim C2 at a concrete program assigning
only x. -/
theorem c2_missing_result_witness :
    execAndFormat (Table.mk [] []) (Table.mk [] []) [Stmt.assign "y" (Expr.intLit 2)]
      = Except.ok ("**Answer:** None\n\n*Analysis by gpt-oss-120b*") :=
  c2_missing_result (Table.mk [] []) (Table.mk [] [])
    [Stmt.assign "y" (Expr.intLit 2)] (by decide) (by rfl)

/-- Claim C3: for every completion response containing no fenced code
block (no occurrence of the python marker the extractor keys on), the
agent returns the raw response text verbatim as the final answer,
without executing anything and without error, for every parser and
every dataset. -/
theorem c3_passthrough (query : String) (deals orders : Table) (key : String)
    (completionOf : String → Except String String)
    (parse : String → Except String (List Stmt)) (text : String)
    (hk : ¬ key = "")
    (hc : completionOf (buildPrompt deals orders query) = Except.ok text)
    (ht : hasPythonTag text = false) :
    askAgent query deals orders key completionOf parse = text := by
  simp only [askAgent, hc, ht]
  rw [if_neg hk]
  simp

/-- Witness for claim C3: end-to-end scenario C, a plain text response. -/
theorem c3_passthrough_witness :
    askAgent "What is the answer" (Table.mk [] []) (Table.mk [] []) "key"
      (fun _ => Except.ok "The answer is 7") (fun _ => Except.error "SyntaxError")
      = "The answer is 7" :=
  c3_passthrough "What is the answer" (Table.mk [] []) (Table.mk [] []) "key"
    _ _ "The answer is 7" (by decide) rfl (by decide)

/-- Witness for claim C4 with a concrete response holding two fenced
blocks; only the first block is extracted and the second is ignored. -/
theorem c4_first_block_witness :
    hasSeg pythonTagChars ("Sure:\n".data ++ (pythonTagChars ++ ("\nresult = 42\n".data
      ++ (fenceChars ++ "\nAlso: ```python\nresult = 0\n``` trailing".data)))) = true ∧
    extractCodeL ("Sure:\n".data ++ (pythonTagChars ++ ("\nresult = 42\n".data
      ++ (fenceChars ++ "\nAlso: ```python\nresult = 0\n``` trailing".data))))
      = trimChars "\nresult = 42\n".data :=
  extract_first_block "Sure:\n".data "\nresult = 42\n".data
    "\nAlso: ```python\nresult = 0\n``` trailing".data
    (by decide) (by decide) (by decide)

/-- Claim C5: every error raised at the completion boundary, at the
parse of the extracted code, or during the sandboxed execution, is
caught inside the agent and converted into the descriptive error
message returned as the response; the agent is a total function, so no
exception propagates to the caller. -/
theorem c5_errors_contained (query : String) (deals orders : Table) (key : String)
    (completionOf : String → Except String String)
    (parse : String → Except String (List Stmt))
    (hk : ¬ key = "") :
    (∀ e, completionOf (buildPrompt deals orders query) = Except.error e →
      askAgent query deals orders key completionOf parse = errText e) ∧
    (∀ text e, completionOf (buildPrompt deals orders query) = Except.ok text →
      hasPythonTag text = true →
      parse (extractCode text) = Except.error e →
      askAgent query deals orders key completionOf parse = errText e) ∧
    (∀ text prog e, completionOf (buildPrompt deals orders query) = Except.ok text →
      hasPythonTag text = true →
      parse (extractCode text) = Except.ok prog →
      (runSandbox deals orders prog).err = some e →
      askAgent query deals orders key completionOf parse = errText e) := by
  refine ⟨?_, ?_, ?_⟩
  · intro e hc
    simp only [askAgent, hc]
    rw [if_neg hk]
  · intro text e hc ht hp2
    simp only [askAgent, hc, ht, hp2]
    rw [if_neg hk]
    simp
  · intro text prog e hc ht hp2 hrr
    simp only [askAgent, hc, ht, hp2, hrr]
    rw [if_neg hk]
    simp

/-- Witness for claim C5: end-to-end scenario D, a transport failure
from the completion service becomes the user-readable error message. -/
theorem c5_errors_contained_witness :
    askAgent "q" (Table.mk [] []) (Table.mk [] []) "k"
      (fun _ => Except.error "Connection error") (fun _ => Except.error "SyntaxError")
      = errText "Connection error" :=
  (c5_errors_contained "q" (Table.mk [] []) (Table.mk [] []) "k"
    (fun _ => Except.error "Connection error") (fun _ => Except.error "SyntaxError")
    (by decide)).1 "Connection error" rfl

/-- Claim C6: the Result Formatter is total: a captured value that is a
table in the heap is rendered under the Answer heading as a markdown
table followed by the provenance footer naming the model; every other
captured value is rendered as a labeled Answer line with the same
footer; the display text is always non-empty. -/
theorem c6_formatter_total (h : Heap) (v : PyVal) :
    (∃ body, formatResult h v = "**Answer:**" ++ body ++ ansFooter) ∧
    0 < (formatResult h v).length ∧
    (∀ a t, v = PyVal.ref a → h[a]? = some t →
      formatResult h v = "**Answer:**\n\n" ++ renderTable t ++ ansFooter) := by
  have hex : ∃ body, formatResult h v = "**Answer:**" ++ body ++ ansFooter := by
    cases v with
    | ref a =>
      rcases hha : h[a]? with _ | t
      · exact ⟨" " ++ pyStr (PyVal.ref a), by simp only [formatResult, hha]; rw [ansSplit1]⟩
      · exact ⟨"\n\n" ++ renderTable t, by simp only [formatResult, hha]; rw [ansSplit2]⟩
    | int n => exact ⟨" " ++ pyStr (PyVal.int n), by simp only [formatResult]; rw [ansSplit1]⟩
    | str s2 => exact ⟨" " ++ pyStr (PyVal.str s2), by simp only [formatResult]; rw [ansSplit1]⟩
    | none => exact ⟨" " ++ pyStr PyVal.none, by simp only [formatResult]; rw [ansSplit1]⟩
    | builtin nm =>
      exact ⟨" " ++ pyStr (PyVal.builtin nm), by simp only [formatResult]; rw [ansSplit1]⟩
    | pdModule =>
      exact ⟨" " ++ pyStr PyVal.pdModule, by simp only [formatResult]; rw [ansSplit1]⟩
  refine ⟨hex, ?_, ?_⟩
  · obtain ⟨body, heq⟩ := hex
    rw [heq, String.length_append, String.length_append]
    have h11 : ("**Answer:**" : String).length = 11 := by decide
    omega
  · intro a t hv hha
    subst hv
    simp only [formatResult, hha]

/-- Witness for claim C6 at a concrete heap holding one table and the
reference value pointing at it. -/
theorem c6_formatter_total_witness :
    formatResult [Table.mk ["a"] [["1"]]] (PyVal.ref 0)
      = "**Answer:**\n\n" ++ renderTable (Table.mk ["a"] [["1"]]) ++ ansFooter :=
  (c6_formatter_total [Table.mk ["a"] [["1"]]] (PyVal.ref 0)).2.2 0
    (Table.mk ["a"] [["1"]]) rfl rfl

/-- Claim C7: the Prompt Builder is deterministic: two invocations with
identical dataset contents and identical query text produce identical
prompt strings; the prompt is a pure function of those inputs and
nothing else. -/
theorem c7_prompt_deterministic (d1 o1 : Table) (q1 : String) (d2 o2 : Table) (q2 : String)
    (hd : d1 = d2) (ho : o1 = o2) (hq : q1 = q2) :
    buildPrompt d1 o1 q1 = buildPrompt d2 o2 q2 := by
  subst hd; subst ho; subst hq; rfl

/-- Witness for claim C7 at concrete equal inputs. -/
theorem c7_prompt_deterministic_witness :
    buildPrompt (Table.mk ["v"] [["5"]]) (Table.mk [] []) "Total deals value"
      = buildPrompt (Table.mk ["v"] [["5"]]) (Table.mk [] []) "Total deals value" :=
  c7_prompt_deterministic (Table.mk ["v"] [["5"]]) (Table.mk [] []) "Total deals value"
    (Table.mk ["v"] [["5"]]) (Table.mk [] []) "Total deals value" rfl rfl rfl

/-- Claim C8: the prompt samples at most 3 records from each dataset;
an empty dataset is rendered as the explicit No data placeholder
instead of sample rows; a nonempty dataset is rendered as a table of
its first at most 3 records; and the prompt is well defined and
non-empty whatever the datasets, in particular when both are empty. -/
theorem c8_sample_bound (deals orders : Table) (q : String) :
    (deals.rows.take 3).length ≤ 3 ∧ (orders.rows.take 3).length ≤ 3 ∧
    (deals.emptyTable = true → sampleBlock deals = "No data") ∧
    (orders.emptyTable = true → sampleBlock orders = "No data") ∧
    (deals.emptyTable = false →
      sampleBlock deals = renderTable (Table.mk deals.cols (deals.rows.take 3))) ∧
    (orders.emptyTable = false →
      sampleBlock orders = renderTable (Table.mk orders.cols (orders.rows.take 3))) ∧
    0 < (buildPrompt deals orders q).length := by
  refine ⟨?_, ?_, ?_, ?_, ?_, ?_, ?_⟩
  · rw [List.length_take]; exact Nat.min_le_left _ _
  · rw [List.length_take]; exact Nat.min_le_left _ _
  · intro h; simp [sampleBlock, h]
  · intro h; simp [sampleBlock, h]
  · intro h; simp [sampleBlock, h]
  · intro h; simp [sampleBlock, h]
  · simp only [buildPrompt, String.length_append]
    have h1 : 0 < ("\nI have two pandas DataFrames: `df_deals` and `df_orders`.\n\nSample df_deals:\n" : String).length := by decide
    omega

/-- Witness for claim C8: end-to-end scenario A with two empty
datasets. -/
theorem c8_sample_bound_witness :
    sampleBlock (Table.mk [] []) = "No data" ∧
    0 < (buildPrompt (Table.mk [] []) (Table.mk [] []) "How many deals closed").length :=
  ⟨(c8_sample_bound (Table.mk [] []) (Table.mk [] []) "How many deals closed").2.2.1 rfl,
   (c8_sample_bound (Table.mk [] []) (Table.mk [] []) "How many deals closed").2.2.2.2.2.2⟩

/-- Claim C9 counterexample: a generated program performing an in-place
cell update mutates the dataset the executor handed it by reference;
the execution succeeds and the heap afterwards differs from the input
datasets, so the executor does not leave the datasets unchanged for
every program. -/
theorem c9_counterexample :
    (runSandbox (Table.mk ["a"] [["1"]]) (Table.mk [] [])
      [Stmt.setCell "df_deals" 0 0 "999"]).err = Option.none ∧
    (runSandbox (Table.mk ["a"] [["1"]]) (Table.mk [] [])
      [Stmt.setCell "df_deals" 0 0 "999"]).heap
      ≠ [Table.mk ["a"] [["1"]], Table.mk [] []] :=
  ⟨by decide, by decide⟩

/-- Claim C9 (amended): the executor passes the datasets by reference
and does not protect them; a generated program containing no in-place
mutation statement leaves both datasets unchanged, whether the
execution succeeds or fails. -/
theorem c9_no_mutation_frame (deals orders : Table) (prog : List Stmt)
    (hmut : ∀ s ∈ prog, s.isMutation = false) :
    (runSandbox deals orders prog).heap = [deals, orders] :=
  execStmts_heap prog [deals, orders]
    [("df_deals", PyVal.ref 0), ("df_orders", PyVal.ref 1), ("pd", PyVal.pdModule)] hmut

/-- Witness for the amended claim C9 at a concrete mutation-free
program which even fails mid-way. -/
theorem c9_no_mutation_frame_witness :
    (runSandbox (Table.mk ["a"] [["1"]]) (Table.mk [] [])
      [Stmt.assign "result" (Expr.name "df_deals")]).heap
      = [Table.mk ["a"] [["1"]], Table.mk [] []] :=
  c9_no_mutation_frame (Table.mk ["a"] [["1"]]) (Table.mk [] [])
    [Stmt.assign "result" (Expr.name "df_deals")] (by decide)

/-- Claim C10 counterexample: a response whose fenced block carries the
tag python3, a different language tag, still contains the literal
marker the detector keys on; the agent executes the block content
(prefixed by the leftover 3) instead of returning the raw text
verbatim, so a block with a different tag is not always treated as
having no code block. -/
theorem c10_counterexample :
    hasPythonTag "```python3\nresult = 7\n```" = true ∧
    askAgent "q" (Table.mk [] []) (Table.mk [] []) "k"
      (fun _ => Except.ok "```python3\nresult = 7\n```")
      (fun s => if s = "3\nresult = 7"
        then Except.ok [Stmt.exprStmt (Expr.intLit 3), Stmt.assign "result" (Expr.intLit 7)]
        else Except.error "SyntaxError: invalid syntax")
      = "**Answer:** 7\n\n*Analysis by gpt-oss-120b*" ∧
    ("**Answer:** 7\n\n*Analysis by gpt-oss-120b*" : String)
      ≠ "```python3\nresult = 7\n```" :=
  ⟨by decide, by rfl, by decide⟩

/-- Claim C10 (amended): code-block detection keys on the literal
python marker; every response in which that literal does not occur —
in particular a fenced block with an unrelated language tag or with no
tag — is returned verbatim, fence markers included, and nothing is
executed; only a tag that begins with the word python is detected. -/
theorem c10_tag_detection (query : String) (deals orders : Table) (key : String)
    (completionOf : String → Except String String)
    (parse : String → Except String (List Stmt))
    (a tag body c : String)
    (hk : ¬ key = "")
    (hc : completionOf (buildPrompt deals orders query)
      = Except.ok (a ++ ("```" ++ (tag ++ ("\n" ++ (body ++ ("```" ++ c)))))))
    (ht : hasPythonTag (a ++ ("```" ++ (tag ++ ("\n" ++ (body ++ ("```" ++ c)))))) = false) :
    askAgent query deals orders key completionOf parse
      = a ++ ("```" ++ (tag ++ ("\n" ++ (body ++ ("```" ++ c))))) := by
  simp only [askAgent, hc, ht]
  rw [if_neg hk]
  simp

/-- Witness for the amended claim C10 at a concrete response fencing a
javascript block. -/
theorem c10_tag_detection_witness :
    askAgent "q" (Table.mk [] []) (Table.mk [] []) "k"
      (fun _ => Except.ok ("" ++ ("```" ++ ("javascript" ++ ("\n" ++ ("result = 1" ++ ("```" ++ "")))))))
      (fun _ => Except.error "SyntaxError")
      = "" ++ ("```" ++ ("javascript" ++ ("\n" ++ ("result = 1" ++ ("```" ++ ""))))) :=
  c10_tag_detection "q" (Table.mk [] []) (Table.mk [] []) "k"
    _ _ "" "javascript" "result = 1" "" (by decide) rfl (by decide)

end BIAgent
